import Mathlib

/-!
Verification of the NFT contract core (ownership / approval transfer protocol
and royalty payout engine) against its natural-language specification.

The Rust source (src/contract/src/*.rs) is shallowly embedded below:
  * `AccountId`/`TokenId` are `String`s, as in the source.
  * Rust `HashMap`s / `LookupMap`s become association lists with
    overwrite-insert (`minsert`), lookup (`mfind`) and removal (`merase`).
    Iteration order of a `HashMap` is arbitrary in Rust; every property we
    prove about a loop over a map is order-insensitive (sums, final caps),
    so the list order is a harmless representation choice.
  * `u32`/`u64`/`u128` become `Nat`.  In every modelled operation each
    arithmetic step is guarded so that the Rust value cannot overflow
    (royalty amounts are capped at 7000 before being added; the only
    unguarded product is `royalty_percentage as u128 * amount_to_pay`,
    whose overflow-freedom appears as an explicit hypothesis where it
    matters).
  * A Rust `env::panic_str`/`assert!`/`require!` abort becomes
    `Except.error e : Except NftError _`.  On the NEAR host an abort rolls
    back every state write of the call, so an `error` result carries no
    successor state: "no state change on failure" holds by construction.
  * Cross-contract promises (storage refunds, `nft_on_transfer` calls) are
    external effects with no bearing on contract state; they are not part
    of the state model.
  * The `tokens_per_owner` enumeration index and token metadata contents
    are bookkeeping orthogonal to the claims (the spec places enumeration
    out of scope); `tokens_per_owner` is omitted from the state and
    metadata is kept as an opaque `String`.
-/

namespace NftContract

abbrev AccountId := String
abbrev TokenId := String
abbrev TokenMetadata := String

/-- Lookup in an association list (Rust `HashMap::get` / `LookupMap::get`). -/
def mfind {β : Type} : List (String × β) → String → Option β
  | [], _ => none
  | (k', v) :: rest, k => if k' = k then some v else mfind rest k

/-- Overwrite-insert into an association list (Rust `HashMap::insert` /
`LookupMap::insert`): replaces the value at an existing key, else appends. -/
def minsert {β : Type} : List (String × β) → String → β → List (String × β)
  | [], k, v => [(k, v)]
  | (k', v') :: rest, k, v =>
      if k' = k then (k, v) :: rest else (k', v') :: minsert rest k v

/-- Key removal from an association list (Rust `HashMap::remove` /
`LookupMap::remove`). -/
def merase {β : Type} : List (String × β) → String → List (String × β)
  | [], _ => []
  | (k', v') :: rest, k => if k' = k then merase rest k else (k', v') :: merase rest k

/-- Sum of the values of an association list over `Nat`. -/
def msum (m : List (String × Nat)) : Nat := (m.map Prod.snd).sum

/-- Keys of an association list. -/
def mkeys {β : Type} (m : List (String × β)) : List String := m.map Prod.fst

/-- Per-token approval map: delegate account → approval id
(Rust `HashMap<AccountId, u64>`). -/
abbrev ApprovalMap := List (String × Nat)

/-- Per-token royalty schedule: account → basis points
(Rust `HashMap<AccountId, u32>` inside `TokenRoyalty`). -/
abbrev RoyaltyMap := List (String × Nat)

/-- Constant `MINTER_ROYALTY_CAP` from lib.rs. -/
def MINTER_ROYALTY_CAP : Nat := 7000

/-- Abstract error kinds, one per panic/require site of the source.  The
doc of each constructor names the Rust panic message it embeds; the spec's
error taxonomy groups `unauthorized` and `senderNotApproved` under its
single `Unauthorized` kind (both are "caller lacks rights" aborts). -/
inductive NftError where
  /-- Panic " Token doesn't exists!" / "cypher: Token not found" -/
  | tokenNotFound
  /-- Panic " Unauthorized" (non-owner sender and no approval record for the token) -/
  | unauthorized
  /-- Panic " Sender not approved" (approval record exists but lacks the sender) -/
  | senderNotApproved
  /-- Panic "The actual approval_id .. is different from the given approval_id .." -/
  | invalidApproval
  /-- Panic " Current and next owner must differ" -/
  | selfTransfer
  /-- Panic "cypher: NFT does not support Approval Management" -/
  | capabilityDisabled
  /-- Panic "cypher: next_approval_by_id must be set for approval ext" -/
  | nextApprovalUnset
  /-- Panic "cypher: Predecessor must be token owner" -/
  | ownerRequired
  /-- Panic " Cannot add more than 7 perpetual royalties" -/
  | tooManyPerpetualRoyalties
  /-- Royalty cap asserts in `internal_mint` / `nft_transfer_payout`
  (spec: `RoyaltyCapExceeded`) -/
  | royaltyCapExceeded
  /-- Panic "cypher: Market cannot payout to that many receivers"
  (spec: `TooManyRoyalties`) -/
  | tooManyRoyalties
  /-- Panic "cypher: token_id must be unique" -/
  | tokenIdNotUnique
  /-- Panic of `royalty_by_id.get(&token_id).unwrap()` when the royalty record
  is missing for an existing token -/
  | royaltyRecordMissing
  deriving DecidableEq, Repr

/-- The spec's `Unauthorized` kind covers both "caller lacks rights" panic
sites of `internal_transfer`. -/
def NftError.isUnauthorized : NftError → Bool
  | .unauthorized => true
  | .senderNotApproved => true
  | _ => false

/-- Contract state (lib.rs `struct Contract`), restricted to the fields the
ownership/approval/royalty core reads or writes.  `Option` on a map mirrors
the optional subsystems (`approvals_by_id`, `next_approval_id_by_id`,
`royalty_by_id`, `token_metadata_by_id`). -/
structure Contract where
  owner_id : AccountId
  owner_by_id : List (TokenId × AccountId)
  token_metadata_by_id : Option (List (TokenId × TokenMetadata))
  approvals_by_id : Option (List (TokenId × ApprovalMap))
  next_approval_id_by_id : Option (List (TokenId × Nat))
  royalty_by_id : Option (List (TokenId × RoyaltyMap))
  deriving Repr

/-- Function `royalty_to_payout` (internal.rs 23-25):
`U128(royalty_percentage as u128 * amount_to_pay / 10_000u128)`. -/
def royalty_to_payout (royalty_percentage : Nat) (amount_to_pay : Nat) : Nat :=
  royalty_percentage * amount_to_pay / 10000

/-- The perpetual-royalty loop of `internal_mint` (internal.rs 48-60):
for each `(account, amount)`, assert `amount < MINTER_ROYALTY_CAP`, insert
into the schedule (overwriting any existing entry for `account`), add to
`total_perpetual`, assert `total_perpetual <= MINTER_ROYALTY_CAP`. -/
def mintRoyaltyLoop : List (AccountId × Nat) → RoyaltyMap → Nat →
    Except NftError (RoyaltyMap × Nat)
  | [], royalty, total => .ok (royalty, total)
  | (account, amount) :: rest, royalty, total =>
      if amount < MINTER_ROYALTY_CAP then
        let total' := total + amount
        if total' ≤ MINTER_ROYALTY_CAP then
          mintRoyaltyLoop rest (minsert royalty account amount) total'
        else .error .royaltyCapExceeded
      else .error .royaltyCapExceeded

/-- Function `internal_mint` (internal.rs 29-109).  The schedule starts from
`{contract owner ↦ 150}` with `total_perpetual = 150`; at most 7 caller
entries are allowed; then the state writes: owner, metadata, royalty record,
an empty approval map and next-approval-id 1 for the token.  The emitted
`NftMint` event and the returned `TokenJson` carry no state and are left
out; `tokens_per_owner` is enumeration bookkeeping, also left out. -/
def internal_mint (c : Contract) (token_owner_id : AccountId) (token_id : TokenId)
    (perpetual_royalties : Option (List (AccountId × Nat)))
    (token_metadata : TokenMetadata) : Except NftError Contract :=
  let royalty0 : RoyaltyMap := [(c.owner_id, 150)]
  let royaltyRes : Except NftError (RoyaltyMap × Nat) :=
    match perpetual_royalties with
    | none => .ok (royalty0, 150)
    | some perp =>
        if perp.length ≤ 7 then
          mintRoyaltyLoop perp royalty0 150
        else .error .tooManyPerpetualRoyalties
  match royaltyRes with
  | .error e => .error e
  | .ok (royalty, _total) =>
      .ok { c with
        owner_by_id := minsert c.owner_by_id token_id token_owner_id
        token_metadata_by_id :=
          c.token_metadata_by_id.map (fun m => minsert m token_id token_metadata)
        royalty_by_id := c.royalty_by_id.map (fun m => minsert m token_id royalty)
        approvals_by_id := c.approvals_by_id.map (fun m => minsert m token_id [])
        next_approval_id_by_id :=
          c.next_approval_id_by_id.map (fun m => minsert m token_id 1) }

/-- Function `nft_mint` (mint.rs 6-23): token-id uniqueness check, then
`internal_mint`. -/
def nft_mint (c : Contract) (token_id : TokenId) (token_metadata : TokenMetadata)
    (receiver_id : AccountId)
    (perpetual_royalties : Option (List (AccountId × Nat))) :
    Except NftError Contract :=
  match mfind c.owner_by_id token_id with
  | some _ => .error .tokenIdNotUnique
  | none => internal_mint c receiver_id token_id perpetual_royalties token_metadata

/-- Function `internal_transfer_unguarded` (internal.rs 175-203), restricted to the
modelled state: `owner_by_id.insert(token_id, to)`.  (The rest of the Rust
function maintains the out-of-scope `tokens_per_owner` enumeration index.) -/
def internal_transfer_unguarded (c : Contract) (token_id : TokenId)
    (_from receiver : AccountId) : Contract :=
  { c with owner_by_id := minsert c.owner_by_id token_id receiver }

/-- Successful result of `internal_transfer`: the new state, the returned
`(previous owner, previous approval map)` pair, and the `authorized_id`
field of the emitted `NftTransfer` event. -/
structure TransferOk where
  state : Contract
  old_owner : AccountId
  old_approvals : Option ApprovalMap
  authorized_id : Option AccountId
  deriving Repr

/-- The non-owner authorization block of `internal_transfer`
(internal.rs 132-151): against the just-removed approval map, a non-owner
sender must appear as a delegate, and a supplied `approval_id` must equal
the stored id.  Returns the `sender_id` binding used by the event
(`Some(sender)` exactly when the sender is not the owner). -/
def transferAuth (approved_account_ids : Option ApprovalMap)
    (sender_id owner_id : AccountId) (approval_id : Option Nat) :
    Except NftError (Option AccountId) :=
  if sender_id ≠ owner_id then
    match approved_account_ids with
    | none => .error .unauthorized
    | some app_acc_ids =>
        match mfind app_acc_ids sender_id with
        | none => .error .senderNotApproved
        | some actual_approval_id =>
            if approval_id = none ∨ approval_id = some actual_approval_id then
              .ok (some sender_id)
            else .error .invalidApproval
  else .ok none

/-- Function `internal_transfer` (internal.rs 114-170).  Looks up the owner
(`tokenNotFound` panic otherwise), removes the token's approval map,
authorizes a non-owner sender against it (`transferAuth`), rejects
owner = receiver, writes the new owner, and emits `NftTransfer` with
`authorized_id: sender_id.filter(|sender_id| *sender_id == &owner_id)`
where `sender_id` is `Some(sender)` exactly when `sender != owner`. -/
def internal_transfer (c : Contract) (sender_id receiver_id : AccountId)
    (token_id : TokenId) (approval_id : Option Nat) :
    Except NftError TransferOk :=
  match mfind c.owner_by_id token_id with
  | none => .error .tokenNotFound
  | some owner_id =>
      let approved_account_ids := c.approvals_by_id.bind (fun m => mfind m token_id)
      let c1 := { c with
        approvals_by_id := c.approvals_by_id.map (fun m => merase m token_id) }
      match transferAuth approved_account_ids sender_id owner_id approval_id with
      | .error e => .error e
      | .ok sender_opt =>
          if owner_id = receiver_id then .error .selfTransfer else
          .ok { state := internal_transfer_unguarded c1 token_id owner_id receiver_id
                old_owner := owner_id
                old_approvals := approved_account_ids
                authorized_id := sender_opt.filter (fun s => s = owner_id) }

/-- Outcome of the stage-1 notification promise (`env::promise_result(0)` in
nft_core.rs 152).  `successful decoded` carries the result of
`serde_json::from_slice::<bool>(&value)`: `some b` when the payload decodes
as the boolean `b`, `none` for any non-boolean payload. -/
inductive PromiseResult where
  | notReady
  | successful (decoded : Option Bool)
  | failed
  deriving DecidableEq, Repr

/-- The `must_revert` match of `nft_resolve_transfer` (nft_core.rs 152-162).
`none` models the `env::abort()` on `NotReady`. -/
def mustRevert : PromiseResult → Option Bool
  | .notReady => none
  | .successful decoded =>
      match decoded with
      | some yes_or_no => some yes_or_no
      | none => some true
  | .failed => some true

/-- Function `nft_resolve_transfer` (nft_core.rs 144-208).  Returns `none` for the
fatal `env::abort()` on a not-ready promise, otherwise the new state and the
boolean return value (`true` iff the transfer to `receiver_id` stands).
Storage refunds (`refund_approved_account_ids`) are outward promises and do
not touch contract state. -/
def nft_resolve_transfer (c : Contract) (previous_owner_id receiver_id : AccountId)
    (token_id : TokenId) (approved_account_ids : Option ApprovalMap)
    (pr : PromiseResult) : Option (Contract × Bool) :=
  match mustRevert pr with
  | none => none
  | some must_revert =>
      if !must_revert then some (c, true) else
      match mfind c.owner_by_id token_id with
      | some current_owner =>
          if current_owner ≠ receiver_id then
            -- Token no longer owned by the receiver: cannot return it.
            some (c, true)
          else
            let c1 := internal_transfer_unguarded c token_id receiver_id previous_owner_id
            let c2 := match c1.approvals_by_id with
              | none => c1
              | some by_id =>
                  -- receiver's approvals (if any) are refunded (external
                  -- effect); the map entry is only replaced when the
                  -- snapshot exists
                  match approved_account_ids with
                  | some previous_owner_approvals =>
                      let by_id' := minsert by_id token_id previous_owner_approvals
                      { c1 with approvals_by_id := some by_id' }
                  | none => c1
            some (c2, false)
      | none =>
          -- Token was burned: refund snapshot storage to the previous owner
          -- (external effect) and conclude.
          some (c, true)

/-- The payout loop of `nft_payout` (royalty.rs 44-52): for each `(k, v)` of
the royalty schedule with `k` different from the owner, insert
`royalty_to_payout v balance` for `k` and add `v` to `total_perpetual`. -/
def payoutLoop (owner_id : AccountId) (balance : Nat) :
    RoyaltyMap → List (AccountId × Nat) → Nat → List (AccountId × Nat) × Nat
  | [], payout, total_perpetual => (payout, total_perpetual)
  | (k, v) :: rest, payout, total_perpetual =>
      if k ≠ owner_id then
        payoutLoop owner_id balance rest
          (minsert payout k (royalty_to_payout v balance)) (total_perpetual + v)
      else
        payoutLoop owner_id balance rest payout total_perpetual

/-- Function `nft_payout` (royalty.rs 21-58).  Owner lookup (`tokenNotFound`
otherwise); royalty schedule from `royalty_by_id` (the `.unwrap()` panic
when the record is missing becomes `royaltyRecordMissing`; an absent
subsystem yields the empty schedule); the `max_len_payout` size assert;
then the loop and the final owner entry
`royalty_to_payout (10000 - total_perpetual) balance`.  The `10000 - _`
is Rust `u32` subtraction; every mint-produced schedule keeps
`total_perpetual ≤ 7000` so the subtraction cannot underflow, and `Nat`
truncated subtraction agrees with it on that domain. -/
def nft_payout (c : Contract) (token_id : TokenId) (balance : Nat)
    (max_len_payout : Nat) : Except NftError (List (AccountId × Nat)) :=
  match mfind c.owner_by_id token_id with
  | none => .error .tokenNotFound
  | some owner_id =>
      let royaltyRes : Except NftError RoyaltyMap :=
        match c.royalty_by_id with
        | some by_id =>
            match mfind by_id token_id with
            | some r => .ok r
            | none => .error .royaltyRecordMissing
        | none => .ok []
      match royaltyRes with
      | .error e => .error e
      | .ok royalty =>
          if royalty.length ≤ max_len_payout then
            let (payout, total_perpetual) := payoutLoop owner_id balance royalty [] 0
            .ok (minsert payout owner_id
              (royalty_to_payout (10000 - total_perpetual) balance))
          else .error .tooManyRoyalties

/-- Function `nft_approve` (approval.rs 58-99), with `caller` standing for
`env::predecessor_account_id()`.  Order of checks as in the source:
approval-management capability first, then token existence, then the
owner requirement, then the next-approval-id map.  Returns the new state
and the assigned approval id.  The storage-deposit refund and the optional
`nft_on_approve` cross-contract call are external effects. -/
def nft_approve (c : Contract) (caller : AccountId) (token_id : TokenId)
    (account_id : AccountId) : Except NftError (Contract × Nat) :=
  match c.approvals_by_id with
  | none => .error .capabilityDisabled
  | some approvals_by_id =>
      match mfind c.owner_by_id token_id with
      | none => .error .tokenNotFound
      | some owner_id =>
          if caller = owner_id then
            match c.next_approval_id_by_id with
            | none => .error .nextApprovalUnset
            | some next_approval_by_id =>
                let approved_account_ids := (mfind approvals_by_id token_id).getD []
                let approval_id := (mfind next_approval_by_id token_id).getD 1
                let approved' := minsert approved_account_ids account_id approval_id
                let approvals' := minsert approvals_by_id token_id approved'
                let next' := minsert next_approval_by_id token_id (approval_id + 1)
                .ok ({ c with approvals_by_id := some approvals'
                              next_approval_id_by_id := some next' }, approval_id)
          else .error .ownerRequired

/-- Function `nft_is_approved` (approval.rs 102-135).  Token existence is checked
first (`tokenNotFound` panic); a disabled approval subsystem, a token with
no approval record, or an unknown delegate yield `false`, not an error;
a supplied `approval_id` must equal the stored id. -/
def nft_is_approved (c : Contract) (token_id : TokenId)
    (approved_account_id : AccountId) (approval_id : Option Nat) :
    Except NftError Bool :=
  match mfind c.owner_by_id token_id with
  | none => .error .tokenNotFound
  | some _ =>
      match c.approvals_by_id with
      | none => .ok false
      | some approvals_by_id =>
          match mfind approvals_by_id token_id with
          | none => .ok false
          | some approved_account_ids =>
              match mfind approved_account_ids approved_account_id with
              | none => .ok false
              | some actual_approval_id =>
                  match approval_id with
                  | some given_approval_id =>
                      .ok (given_approval_id = actual_approval_id)
                  | none => .ok true

/-- Function `nft_revoke` (approval.rs 139-169), with `caller` for the predecessor.
Capability check, token lookup, owner requirement; then remove the delegate
if present (refunding its storage — external), dropping the whole map when
it becomes empty. -/
def nft_revoke (c : Contract) (caller : AccountId) (token_id : TokenId)
    (account_id : AccountId) : Except NftError Contract :=
  match c.approvals_by_id with
  | none => .error .capabilityDisabled
  | some approvals_by_id =>
      match mfind c.owner_by_id token_id with
      | none => .error .tokenNotFound
      | some owner_id =>
          if caller = owner_id then
            match mfind approvals_by_id token_id with
            | none => .ok c
            | some approved_account_ids =>
                match mfind approved_account_ids account_id with
                | none => .ok c
                | some _ =>
                    let approved' := merase approved_account_ids account_id
                    if approved'.isEmpty then
                      .ok { c with
                        approvals_by_id := some (merase approvals_by_id token_id) }
                    else
                      .ok { c with
                        approvals_by_id :=
                          some (minsert approvals_by_id token_id approved') }
          else .error .ownerRequired

/-- Function `nft_revoke_all` (approval.rs 173-196), with `caller` for the
predecessor: capability check, token lookup, owner requirement; then drop
the token's whole approval map if present (refunding storage — external). -/
def nft_revoke_all (c : Contract) (caller : AccountId) (token_id : TokenId) :
    Except NftError Contract :=
  match c.approvals_by_id with
  | none => .error .capabilityDisabled
  | some approvals_by_id =>
      match mfind c.owner_by_id token_id with
      | none => .error .tokenNotFound
      | some owner_id =>
          if caller = owner_id then
            match mfind approvals_by_id token_id with
            | none => .ok c
            | some _ =>
                .ok { c with
                  approvals_by_id := some (merase approvals_by_id token_id) }
          else .error .ownerRequired

/-- One contract entry point acting on a fixed token, for lifetime
statements about the token's approval-id counter. -/
inductive Op where
  | approve (caller account_id : AccountId)
  | revoke (caller account_id : AccountId)
  | revokeAll (caller : AccountId)
  | transfer (sender_id receiver_id : AccountId) (approval_id : Option Nat)
  | resolve (previous_owner_id receiver_id : AccountId)
      (approved_account_ids : Option ApprovalMap) (pr : PromiseResult)

/-- Run one operation on the token: the successor state (the original state
when the operation aborts, mirroring the host's rollback-on-panic), plus
the approval ids it assigned (one for a successful `nft_approve`, none
otherwise). -/
def stepOp (c : Contract) (token_id : TokenId) : Op → Contract × List Nat
  | .approve caller account_id =>
      match nft_approve c caller token_id account_id with
      | .ok (c', id) => (c', [id])
      | .error _ => (c, [])
  | .revoke caller account_id =>
      match nft_revoke c caller token_id account_id with
      | .ok c' => (c', [])
      | .error _ => (c, [])
  | .revokeAll caller =>
      match nft_revoke_all c caller token_id with
      | .ok c' => (c', [])
      | .error _ => (c, [])
  | .transfer sender_id receiver_id approval_id =>
      match internal_transfer c sender_id receiver_id token_id approval_id with
      | .ok r => (r.state, [])
      | .error _ => (c, [])
  | .resolve previous_owner_id receiver_id approved_account_ids pr =>
      match nft_resolve_transfer c previous_owner_id receiver_id token_id
          approved_account_ids pr with
      | some (c', _) => (c', [])
      | none => (c, [])

/-- Run a sequence of operations on the token, collecting every assigned
approval id in order. -/
def runOps (c : Contract) (token_id : TokenId) : List Op → Contract × List Nat
  | [] => (c, [])
  | op :: rest =>
      let (c1, ids1) := stepOp c token_id op
      let (c2, ids2) := runOps c1 token_id rest
      (c2, ids1 ++ ids2)

/-- The token's next-approval-id counter as `nft_approve` reads it:
`next_approval_id_by_id.get(&token_id).unwrap_or(1)`. -/
def nextIdOf (c : Contract) (token_id : TokenId) : Nat :=
  match c.next_approval_id_by_id with
  | some m => (mfind m token_id).getD 1
  | none => 1

/-- The royalty schedule stored for a token. -/
def tokenRoyalty (c : Contract) (token_id : TokenId) : Option RoyaltyMap :=
  c.royalty_by_id.bind (fun m => mfind m token_id)

/-- The approval map seen (and removed) by `internal_transfer` for a token. -/
def tokenApprovals (c : Contract) (token_id : TokenId) : Option ApprovalMap :=
  c.approvals_by_id.bind (fun m => mfind m token_id)

/-- Sum of the basis points of the schedule entries whose account differs
from the owner — the value `total_perpetual` accumulates in `nft_payout`. -/
def nonOwnerTotal (owner_id : AccountId) : RoyaltyMap → Nat
  | [] => 0
  | (k, v) :: rest =>
      if k ≠ owner_id then v + nonOwnerTotal owner_id rest
      else nonOwnerTotal owner_id rest

/-- Sum of the values supplied in a perpetual-royalty argument. -/
def perpTotal (perp : List (AccountId × Nat)) : Nat := (perp.map Prod.snd).sum

/-! ### Association-list lemmas -/

theorem mfind_minsert_self {β : Type} (m : List (String × β)) (k : String) (v : β) :
    mfind (minsert m k v) k = some v := by
  induction m with
  | nil => simp [minsert, mfind]
  | cons hd tl ih =>
      obtain ⟨k', v'⟩ := hd
      by_cases h : k' = k
      · simp [minsert, mfind, h]
      · simp [minsert, mfind, h, ih]

theorem mfind_minsert_ne {β : Type} (m : List (String × β)) (k k' : String) (v : β)
    (h : k' ≠ k) : mfind (minsert m k' v) k = mfind m k := by
  induction m with
  | nil => simp [minsert, mfind, h]
  | cons hd tl ih =>
      obtain ⟨k0, v0⟩ := hd
      by_cases h0 : k0 = k'
      · subst h0
        simp [minsert, mfind, h]
      · simp only [minsert, if_neg h0, mfind]
        by_cases h1 : k0 = k
        · simp [h1]
        · simp [h1, ih]

theorem msum_minsert_le (m : List (String × Nat)) (k : String) (v : Nat) :
    msum (minsert m k v) ≤ msum m + v := by
  induction m with
  | nil => simp [minsert, msum]
  | cons hd tl ih =>
      obtain ⟨k0, v0⟩ := hd
      by_cases h : k0 = k
      · simp only [minsert, if_pos h, msum, List.map_cons, List.sum_cons]
        omega
      · simp only [minsert, if_neg h, msum, List.map_cons, List.sum_cons] at ih ⊢
        omega

/-! ### The payout loop: totals, per-entry values, and sum bounds -/

/-- Sum of `royalty_to_payout v balance` over all non-owner schedule
entries — the total of the non-owner payout lines. -/
def nonOwnerPayout (owner_id : AccountId) (balance : Nat) : RoyaltyMap → Nat
  | [] => 0
  | (k, v) :: rest =>
      if k ≠ owner_id then royalty_to_payout v balance + nonOwnerPayout owner_id balance rest
      else nonOwnerPayout owner_id balance rest

theorem payoutLoop_snd (owner : AccountId) (bal : Nat) (entries : RoyaltyMap)
    (acc : RoyaltyMap) (total : Nat) :
    (payoutLoop owner bal entries acc total).2 = total + nonOwnerTotal owner entries := by
  induction entries generalizing acc total with
  | nil => simp [payoutLoop, nonOwnerTotal]
  | cons hd rest ih =>
      obtain ⟨k, v⟩ := hd
      by_cases h : k = owner
      · simp only [payoutLoop, nonOwnerTotal]
        rw [if_neg (by simp [h]), if_neg (by simp [h])]
        exact ih _ _
      · simp only [payoutLoop, nonOwnerTotal]
        rw [if_pos h, if_pos h, ih]
        omega

theorem payoutLoop_sum_le (owner : AccountId) (bal : Nat) (entries : RoyaltyMap)
    (acc : RoyaltyMap) (total : Nat) :
    msum (payoutLoop owner bal entries acc total).1 ≤
      msum acc + nonOwnerPayout owner bal entries := by
  induction entries generalizing acc total with
  | nil => simp [payoutLoop, nonOwnerPayout]
  | cons hd rest ih =>
      obtain ⟨k, v⟩ := hd
      by_cases h : k = owner
      · simp only [payoutLoop, nonOwnerPayout]
        rw [if_neg (by simp [h]), if_neg (by simp [h])]
        exact ih _ _
      · simp only [payoutLoop, nonOwnerPayout]
        rw [if_pos h, if_pos h]
        calc msum (payoutLoop owner bal rest
                (minsert acc k (royalty_to_payout v bal)) (total + v)).1
            ≤ msum (minsert acc k (royalty_to_payout v bal)) +
                nonOwnerPayout owner bal rest := ih _ _
          _ ≤ msum acc + (royalty_to_payout v bal + nonOwnerPayout owner bal rest) := by
              have := msum_minsert_le acc k (royalty_to_payout v bal)
              omega

theorem div_add_div_le (a b d : Nat) (hd : 0 < d) : a / d + b / d ≤ (a + b) / d := by
  rw [Nat.le_div_iff_mul_le hd]
  have h1 := Nat.div_mul_le_self a d
  have h2 := Nat.div_mul_le_self b d
  calc (a / d + b / d) * d = a / d * d + b / d * d := by ring
    _ ≤ a + b := by omega

theorem nonOwnerPayout_le (owner : AccountId) (bal : Nat) (entries : RoyaltyMap) :
    nonOwnerPayout owner bal entries ≤ nonOwnerTotal owner entries * bal / 10000 := by
  induction entries with
  | nil => simp [nonOwnerPayout, nonOwnerTotal]
  | cons hd rest ih =>
      obtain ⟨k, v⟩ := hd
      by_cases h : k = owner
      · simp only [nonOwnerPayout, nonOwnerTotal]
        rw [if_neg (by simp [h]), if_neg (by simp [h])]
        exact ih
      · simp only [nonOwnerPayout, nonOwnerTotal]
        rw [if_pos h, if_pos h]
        calc royalty_to_payout v bal + nonOwnerPayout owner bal rest
            ≤ v * bal / 10000 + nonOwnerTotal owner rest * bal / 10000 := by
              have hr : royalty_to_payout v bal = v * bal / 10000 := rfl
              omega
          _ ≤ (v * bal + nonOwnerTotal owner rest * bal) / 10000 :=
              div_add_div_le _ _ _ (by norm_num)
          _ = (v + nonOwnerTotal owner rest) * bal / 10000 := by ring_nf

theorem mfind_payoutLoop_not_mem (owner : AccountId) (bal : Nat) (entries : RoyaltyMap)
    (acc : RoyaltyMap) (total : Nat) (k : String)
    (hk : k ∉ entries.map Prod.fst) :
    mfind (payoutLoop owner bal entries acc total).1 k = mfind acc k := by
  induction entries generalizing acc total with
  | nil => simp [payoutLoop]
  | cons hd rest ih =>
      obtain ⟨k0, v0⟩ := hd
      simp only [List.map_cons, List.mem_cons, not_or] at hk
      obtain ⟨hk0, hkrest⟩ := hk
      by_cases h : k0 = owner
      · simp only [payoutLoop]
        rw [if_neg (by simp [h])]
        exact ih _ _ hkrest
      · simp only [payoutLoop]
        rw [if_pos h]
        rw [ih _ _ hkrest]
        exact mfind_minsert_ne acc k k0 _ (fun he => hk0 he.symm)

theorem mfind_payoutLoop_mem (owner : AccountId) (bal : Nat) (entries : RoyaltyMap)
    (acc : RoyaltyMap) (total : Nat) (k : String) (v : Nat)
    (hnd : (entries.map Prod.fst).Nodup) (hmem : (k, v) ∈ entries) (hko : k ≠ owner) :
    mfind (payoutLoop owner bal entries acc total).1 k =
      some (royalty_to_payout v bal) := by
  induction entries generalizing acc total with
  | nil => exact absurd hmem (by simp)
  | cons hd rest ih =>
      obtain ⟨k0, v0⟩ := hd
      simp only [List.map_cons, List.nodup_cons] at hnd
      obtain ⟨hk0notin, hndrest⟩ := hnd
      rcases List.mem_cons.mp hmem with heq | hmemrest
      · injection heq with h1 h2
        subst h1
        subst h2
        simp only [payoutLoop]
        rw [if_pos hko]
        rw [mfind_payoutLoop_not_mem owner bal rest _ _ k hk0notin]
        exact mfind_minsert_self acc k _
      · by_cases h : k0 = owner
        · simp only [payoutLoop]
          rw [if_neg (by simp [h])]
          exact ih _ _ hndrest hmemrest
        · simp only [payoutLoop]
          rw [if_pos h]
          exact ih _ _ hndrest hmemrest

/-! ### The mint royalty loop: success, failure, and key preservation -/

theorem mintRoyaltyLoop_ok (perp : List (AccountId × Nat)) (royalty : RoyaltyMap)
    (total : Nat)
    (hsum : total + perpTotal perp ≤ MINTER_ROYALTY_CAP)
    (hall : ∀ p ∈ perp, p.2 < MINTER_ROYALTY_CAP) :
    ∃ sched, mintRoyaltyLoop perp royalty total = .ok (sched, total + perpTotal perp) := by
  induction perp generalizing royalty total with
  | nil => exact ⟨royalty, by simp [mintRoyaltyLoop, perpTotal]⟩
  | cons hd rest ih =>
      obtain ⟨a, v⟩ := hd
      have hv : v < MINTER_ROYALTY_CAP := hall (a, v) (by simp)
      have hsum' : total + v + perpTotal rest ≤ MINTER_ROYALTY_CAP := by
        simp only [perpTotal, List.map_cons, List.sum_cons] at hsum ⊢
        omega
      obtain ⟨sched, hs⟩ := ih (minsert royalty a v) (total + v) hsum'
        (fun p hp => hall p (List.mem_cons_of_mem _ hp))
      refine ⟨sched, ?_⟩
      simp only [mintRoyaltyLoop]
      rw [if_pos hv, if_pos (by omega), hs]
      have he : total + v + perpTotal rest = total + perpTotal ((a, v) :: rest) := by
        simp only [perpTotal, List.map_cons, List.sum_cons]
        omega
      rw [he]

theorem mintRoyaltyLoop_err (perp : List (AccountId × Nat)) (royalty : RoyaltyMap)
    (total : Nat) (htot : total ≤ MINTER_ROYALTY_CAP)
    (hbad : (∃ p ∈ perp, MINTER_ROYALTY_CAP ≤ p.2) ∨
      MINTER_ROYALTY_CAP < total + perpTotal perp) :
    mintRoyaltyLoop perp royalty total = .error .royaltyCapExceeded := by
  induction perp generalizing royalty total with
  | nil =>
      rcases hbad with ⟨p, hp, _⟩ | hlt
      · exact absurd hp (by simp)
      · simp only [perpTotal, List.map_nil, List.sum_nil, Nat.add_zero] at hlt
        omega
  | cons hd rest ih =>
      obtain ⟨a, v⟩ := hd
      by_cases hv : v < MINTER_ROYALTY_CAP
      · simp only [mintRoyaltyLoop]
        rw [if_pos hv]
        by_cases hs : total + v ≤ MINTER_ROYALTY_CAP
        · rw [if_pos hs]
          refine ih _ _ hs ?_
          rcases hbad with ⟨p, hp, hpv⟩ | hlt
          · rcases List.mem_cons.mp hp with heq | hmem
            · exfalso
              rw [heq] at hpv
              omega
            · exact Or.inl ⟨p, hmem, hpv⟩
          · right
            simp only [perpTotal, List.map_cons, List.sum_cons] at hlt ⊢
            omega
        · rw [if_neg hs]
      · simp only [mintRoyaltyLoop]
        rw [if_neg hv]

theorem mintRoyaltyLoop_preserve (perp : List (AccountId × Nat)) (royalty : RoyaltyMap)
    (total : Nat) (sched : RoyaltyMap) (tot : Nat) (a : String)
    (h : mintRoyaltyLoop perp royalty total = .ok (sched, tot))
    (ha : a ∉ perp.map Prod.fst) :
    mfind sched a = mfind royalty a := by
  induction perp generalizing royalty total with
  | nil =>
      simp only [mintRoyaltyLoop, Except.ok.injEq, Prod.mk.injEq] at h
      rw [← h.1]
  | cons hd rest ih =>
      obtain ⟨k, v⟩ := hd
      simp only [List.map_cons, List.mem_cons, not_or] at ha
      obtain ⟨hak, harest⟩ := ha
      simp only [mintRoyaltyLoop] at h
      by_cases hv : v < MINTER_ROYALTY_CAP
      · rw [if_pos hv] at h
        by_cases hs : total + v ≤ MINTER_ROYALTY_CAP
        · rw [if_pos hs] at h
          rw [ih _ _ h harest]
          exact mfind_minsert_ne royalty a k v (fun he => hak he.symm)
        · rw [if_neg hs] at h
          exact absurd h (by simp)
      · rw [if_neg hv] at h
        exact absurd h (by simp)

/-! ### Shapes of successful transfers and counter preservation -/

theorem transferAuth_ok_shape (app : Option ApprovalMap) (s o : String) (aid : Option Nat)
    (sender_opt : Option AccountId)
    (h : transferAuth app s o aid = .ok sender_opt) :
    sender_opt = none ∨ (sender_opt = some s ∧ s ≠ o) := by
  unfold transferAuth at h
  split at h
  · rename_i hne
    split at h
    · exact absurd h (by simp)
    · rename_i m hm
      split at h
      · exact absurd h (by simp)
      · rename_i actual hact
        split at h
        · simp only [Except.ok.injEq] at h
          exact Or.inr ⟨h.symm, hne⟩
        · exact absurd h (by simp)
  · simp only [Except.ok.injEq] at h
    exact Or.inl h.symm

theorem internal_transfer_ok_shape (c : Contract) (s r tok : String) (aid : Option Nat)
    (res : TransferOk) (h : internal_transfer c s r tok aid = .ok res) :
    ∃ owner sender_opt,
      mfind c.owner_by_id tok = some owner ∧
      transferAuth (tokenApprovals c tok) s owner aid = .ok sender_opt ∧
      owner ≠ r ∧
      res = { state := { c with
                owner_by_id := minsert c.owner_by_id tok r
                approvals_by_id := c.approvals_by_id.map (fun m => merase m tok) }
              old_owner := owner
              old_approvals := tokenApprovals c tok
              authorized_id := sender_opt.filter (fun s => s = owner) } := by
  unfold internal_transfer at h
  split at h
  · exact absurd h (by simp)
  · rename_i owner howner
    dsimp only at h
    rcases hA : transferAuth (c.approvals_by_id.bind fun m => mfind m tok) s owner aid
      with e | sopt
    · rw [hA] at h
      exact absurd h (by simp)
    · rw [hA] at h
      dsimp only at h
      by_cases hr : owner = r
      · rw [if_pos hr] at h
        exact absurd h (by simp)
      · rw [if_neg hr] at h
        simp only [Except.ok.injEq] at h
        exact ⟨owner, sopt, howner, hA, hr, h.symm⟩

theorem nft_approve_ok_next (c : Contract) (caller tok acc : String) (c' : Contract)
    (id : Nat) (h : nft_approve c caller tok acc = .ok (c', id)) :
    id = nextIdOf c tok ∧ nextIdOf c' tok = id + 1 := by
  unfold nft_approve at h
  split at h
  · exact absurd h (by simp)
  · rename_i abid habid
    split at h
    · exact absurd h (by simp)
    · rename_i owner howner
      split at h
      · split at h
        · exact absurd h (by simp)
        · rename_i next hnext
          simp only [Except.ok.injEq, Prod.mk.injEq] at h
          obtain ⟨hc', hid⟩ := h
          subst hc'
          constructor
          · simp only [nextIdOf, hnext]
            exact hid.symm
          · simp only [nextIdOf, mfind_minsert_self, Option.getD_some]
            rw [hid]
      · exact absurd h (by simp)

theorem nft_revoke_next (c : Contract) (caller tok acc : String) (c' : Contract)
    (h : nft_revoke c caller tok acc = .ok c') :
    c'.next_approval_id_by_id = c.next_approval_id_by_id := by
  unfold nft_revoke at h
  split at h
  · exact absurd h (by simp)
  · split at h
    · exact absurd h (by simp)
    · split at h
      · split at h
        · simp only [Except.ok.injEq] at h
          subst h
          rfl
        · split at h
          · simp only [Except.ok.injEq] at h
            subst h
            rfl
          · dsimp only at h
            split at h <;>
              (simp only [Except.ok.injEq] at h; subst h; rfl)
      · exact absurd h (by simp)

theorem nft_revoke_all_next (c : Contract) (caller tok : String) (c' : Contract)
    (h : nft_revoke_all c caller tok = .ok c') :
    c'.next_approval_id_by_id = c.next_approval_id_by_id := by
  unfold nft_revoke_all at h
  split at h
  · exact absurd h (by simp)
  · split at h
    · exact absurd h (by simp)
    · split at h
      · split at h <;> (simp only [Except.ok.injEq] at h; subst h; rfl)
      · exact absurd h (by simp)

theorem nft_resolve_transfer_next (c : Contract) (p r tok : String)
    (a : Option ApprovalMap) (pr : PromiseResult) (c' : Contract) (b : Bool)
    (h : nft_resolve_transfer c p r tok a pr = some (c', b)) :
    c'.next_approval_id_by_id = c.next_approval_id_by_id := by
  unfold nft_resolve_transfer at h
  split at h
  · exact absurd h (by simp)
  · split at h
    · simp only [Option.some.injEq, Prod.mk.injEq] at h
      rw [← h.1]
    · split at h
      · split at h
        · simp only [Option.some.injEq, Prod.mk.injEq] at h
          rw [← h.1]
        · simp only [Option.some.injEq, Prod.mk.injEq] at h
          rw [← h.1]
          split <;> (try split) <;> rfl
      · simp only [Option.some.injEq, Prod.mk.injEq] at h
        rw [← h.1]

theorem stepOp_spec (c : Contract) (tok : String) (op : Op) :
    ((stepOp c tok op).2 = [] ∧ nextIdOf (stepOp c tok op).1 tok = nextIdOf c tok)
  ∨ ((stepOp c tok op).2 = [nextIdOf c tok] ∧
      nextIdOf (stepOp c tok op).1 tok = nextIdOf c tok + 1) := by
  cases op with
  | approve caller acc =>
      rcases hA : nft_approve c caller tok acc with e | ⟨c', id⟩ <;>
        simp only [stepOp, hA]
      · exact Or.inl (by simp)
      · obtain ⟨hid, hnext⟩ := nft_approve_ok_next c caller tok acc c' id hA
        exact Or.inr ⟨by simp [hid], by rw [hnext, hid]⟩
  | revoke caller acc =>
      rcases hA : nft_revoke c caller tok acc with e | c' <;>
        simp only [stepOp, hA]
      · exact Or.inl (by simp)
      · refine Or.inl ⟨by simp, ?_⟩
        unfold nextIdOf
        rw [nft_revoke_next c caller tok acc c' hA]
  | revokeAll caller =>
      rcases hA : nft_revoke_all c caller tok with e | c' <;>
        simp only [stepOp, hA]
      · exact Or.inl (by simp)
      · refine Or.inl ⟨by simp, ?_⟩
        unfold nextIdOf
        rw [nft_revoke_all_next c caller tok c' hA]
  | transfer s r aid =>
      rcases hA : internal_transfer c s r tok aid with e | res <;>
        simp only [stepOp, hA]
      · exact Or.inl (by simp)
      · refine Or.inl ⟨by simp, ?_⟩
        obtain ⟨owner, sopt, _, _, _, hres⟩ :=
          internal_transfer_ok_shape c s r tok aid res hA
        subst hres
        rfl
  | resolve p r a pr =>
      rcases hA : nft_resolve_transfer c p r tok a pr with _ | ⟨c', b⟩ <;>
        simp only [stepOp, hA]
      · exact Or.inl (by simp)
      · refine Or.inl ⟨by simp, ?_⟩
        unfold nextIdOf
        rw [nft_resolve_transfer_next c p r tok a pr c' b hA]

theorem runOps_spec (c : Contract) (tok : String) (ops : List Op) :
    (runOps c tok ops).2 =
      List.range' (nextIdOf c tok) (runOps c tok ops).2.length
  ∧ nextIdOf (runOps c tok ops).1 tok =
      nextIdOf c tok + (runOps c tok ops).2.length := by
  induction ops generalizing c with
  | nil => exact ⟨rfl, rfl⟩
  | cons op rest ih =>
      rcases hS : stepOp c tok op with ⟨c1, ids1⟩
      obtain ⟨ih1, ih2⟩ := ih c1
      rcases hR : runOps c1 tok rest with ⟨c2, ids2⟩
      rw [hR] at ih1 ih2
      dsimp only at ih1 ih2
      have hrun : runOps c tok (op :: rest) = (c2, ids1 ++ ids2) := by
        unfold runOps
        rw [hS]
        dsimp only
        rw [hR]
      rw [hrun]
      dsimp only
      rcases stepOp_spec c tok op with ⟨h1, h2⟩ | ⟨h1, h2⟩ <;>
        rw [hS] at h1 h2 <;> dsimp only at h1 h2 <;> subst h1
      · rw [List.nil_append, ← h2]
        exact ⟨ih1, ih2⟩
      · rw [List.singleton_append, List.length_cons]
        constructor
        · rw [List.range'_succ]
          rw [h2] at ih1
          exact congrArg _ ih1
        · rw [ih2, h2]
          omega

/-! ## Claim C1 — stage-2 rollback decision -/

/-- Concrete mid-suspension state for the C1 counterexample: token `t` is
held by the receiver `D`, who created an approval for `E` during the
suspension window. -/
def C1state : Contract :=
  { owner_id := "admin", owner_by_id := [("t", "D")]
    token_metadata_by_id := some [("t", "md")]
    approvals_by_id := some [("t", [("E", 1)])]
    next_approval_id_by_id := some [("t", 2)]
    royalty_by_id := some [("t", [("admin", 150)])] }

/-- Claim C1, counterexample.  The claim says a payload decoding as the
boolean `false` forces `must_revert = true`, and a payload decoding as
`true` means no rollback.  The code does the opposite: on `false` the
resolution returns `true` and leaves the state untouched (first conjunct);
on `true` it rolls the owner back to the previous owner `B` and returns
`false` (second conjunct). -/
theorem resolve_decoded_false_no_revert_cex :
    nft_resolve_transfer C1state "B" "D" "t" none (.successful (some false)) =
      some (C1state, true)
  ∧ (nft_resolve_transfer C1state "B" "D" "t" none (.successful (some true))).map
      (fun p => (mfind p.1.owner_by_id "t", p.2)) = some (some "B", false) :=
  ⟨rfl, rfl⟩

/-- Claim C1, amended: `must_revert` is exactly the decoded boolean of a
successful notification payload (`true` means roll back); a payload that is
not a boolean, or a failed/rejected call, forces `must_revert = true`; a
not-ready promise aborts; and a payload decoding as `false` concludes the
resolution with no state change and return value `true`. -/
theorem must_revert_follows_decoded_boolean (c : Contract) (p r t : String)
    (a : Option ApprovalMap) (b : Bool) :
    mustRevert (.successful (some b)) = some b
  ∧ mustRevert (.successful none) = some true
  ∧ mustRevert .failed = some true
  ∧ mustRevert .notReady = none
  ∧ nft_resolve_transfer c p r t a (.successful (some false)) = some (c, true) :=
  ⟨rfl, rfl, rfl, rfl, rfl⟩

/-! ## Claim C2 — approval map after a rolled-back transfer -/

/-- Fresh contract (all subsystems enabled, no tokens) for the C2 run. -/
def C2s0 : Contract := ⟨"admin", [], some [], some [], some [], some []⟩

/-- State after minting `t` for `A`. -/
def C2s1 : Contract :=
  ⟨"admin", [("t", "A")], some [("t", "md")], some [("t", [])],
    some [("t", 1)], some [("t", [("admin", 150)])]⟩

/-- State after the simple transfer `A → B` (the approval record for `t`
has been removed). -/
def C2s2 : Contract :=
  ⟨"admin", [("t", "B")], some [("t", "md")], some [],
    some [("t", 1)], some [("t", [("admin", 150)])]⟩

/-- State after stage 1 of `B`'s notify-and-resolve transfer `B → D`; the
captured snapshot is `none` because `t` had no approval record. -/
def C2s3 : Contract :=
  ⟨"admin", [("t", "D")], some [("t", "md")], some [],
    some [("t", 1)], some [("t", [("admin", 150)])]⟩

/-- State after the receiver `D` approves delegate `E` during the
suspension window. -/
def C2s4 : Contract :=
  ⟨"admin", [("t", "D")], some [("t", "md")], some [("t", [("E", 1)])],
    some [("t", 2)], some [("t", [("admin", 150)])]⟩

/-- State after the failed notification is resolved: ownership is rolled
back to `B`, but `E`'s approval — created by `D` during the window —
remains. -/
def C2s5 : Contract :=
  ⟨"admin", [("t", "B")], some [("t", "md")], some [("t", [("E", 1)])],
    some [("t", 2)], some [("t", [("admin", 150)])]⟩

/-- Claim C2, code bug, evaluated at the failing run.  Mint `t` for `A`;
transfer `A → B` (clears the approval record); start `nft_transfer_call`
`B → D`, whose stage-1 snapshot is `none`; `D` approves `E`; the
notification fails, so resolution rolls ownership back to `B` — yet the
approval for `E` survives in the token's approval map, although the
resolve code's own comment says it reverts "any approvals receiver already
set".  The claim (map restored exactly to the pre-transfer snapshot, no
receiver-created approval remains) is violated: the pre-transfer state had
no approvals for `t`, the post-rollback state has `E ↦ 1`. -/
theorem rollback_keeps_receiver_approvals_when_snapshot_absent :
    internal_mint C2s0 "A" "t" none "md" = .ok C2s1
  ∧ internal_transfer C2s1 "A" "B" "t" none = .ok ⟨C2s2, "A", some [], none⟩
  ∧ internal_transfer C2s2 "B" "D" "t" none = .ok ⟨C2s3, "B", none, none⟩
  ∧ nft_approve C2s3 "D" "t" "E" = .ok (C2s4, 1)
  ∧ nft_resolve_transfer C2s4 "B" "D" "t" none .failed = some (C2s5, false)
  ∧ mfind C2s5.owner_by_id "t" = some "B"
  ∧ tokenApprovals C2s5 "t" = some [("E", 1)] :=
  ⟨rfl, rfl, rfl, rfl, rfl, rfl, rfl⟩

/-! ## Claim C3 — payout sums -/

/-- Concrete state for the C3 counterexample: token `t` owned by `alice`,
royalty schedule `{admin ↦ 150}`. -/
def C3cex : Contract :=
  ⟨"admin", [("t", "alice")], none, none, none, some [("t", [("admin", 150)])]⟩

/-- Claim C3, counterexample.  With balance 3 the payout is
`{admin ↦ 0, alice ↦ 2}`: the amounts sum to 2, not to the balance 3, and
the owner's entry is `⌊9850·3/10000⌋ = 2`, not `balance − sum(others) = 3`.
Each line floors independently and no correction step recovers the
remainder. -/
theorem payout_sum_below_balance_cex :
    nft_payout C3cex "t" 3 10 = .ok [("admin", 0), ("alice", 2)]
  ∧ msum [("admin", 0), ("alice", 2)] = 2
  ∧ (2 : Nat) ≠ 3
  ∧ mfind [(("admin" : String), (0 : Nat)), ("alice", 2)] "alice" = some 2
  ∧ (2 : Nat) ≠ 3 - 0 :=
  ⟨rfl, rfl, by decide, rfl, by decide⟩

/-- Claim C3, amended: for an existing token whose royalty schedule is
found, fits `max_len_payout`, has distinct accounts, and carries at most
10000 non-owner basis points (every mint-produced schedule stays ≤ 7000),
`nft_payout` succeeds; each non-owner entry equals
`⌊bp·balance/10000⌋`, the owner's entry equals
`⌊(10000 − Σ non-owner bp)·balance/10000⌋`, and the amounts sum to AT MOST
the balance (not exactly the balance — each line floors independently).
The `10000·balance < 2¹²⁸` bound keeps every Rust `u128` product of the
computation in range, so the exact `Nat` model is faithful. -/
theorem payout_entry_values_and_sum_bound (c : Contract) (tok : String)
    (bal maxlen : Nat) (owner : String) (royalty : RoyaltyMap)
    (hOwn : mfind c.owner_by_id tok = some owner)
    (hRoy : tokenRoyalty c tok = some royalty)
    (hLen : royalty.length ≤ maxlen)
    (hNd : (royalty.map Prod.fst).Nodup)
    (hT : nonOwnerTotal owner royalty ≤ 10000)
    (hBal : 10000 * bal < 2 ^ 128) :
    ∃ payout, nft_payout c tok bal maxlen = .ok payout
      ∧ mfind payout owner =
          some (royalty_to_payout (10000 - nonOwnerTotal owner royalty) bal)
      ∧ (∀ k v, (k, v) ∈ royalty → k ≠ owner →
          mfind payout k = some (royalty_to_payout v bal))
      ∧ msum payout ≤ bal := by
  obtain ⟨by_id, hby, hfind⟩ : ∃ by_id, c.royalty_by_id = some by_id ∧
      mfind by_id tok = some royalty := by
    unfold tokenRoyalty at hRoy
    rcases hc : c.royalty_by_id with _ | by_id
    · rw [hc] at hRoy
      exact absurd hRoy (by simp)
    · rw [hc] at hRoy
      exact ⟨by_id, rfl, hRoy⟩
  have hred : nft_payout c tok bal maxlen =
      .ok (minsert (payoutLoop owner bal royalty [] 0).1 owner
        (royalty_to_payout (10000 - (payoutLoop owner bal royalty [] 0).2) bal)) := by
    unfold nft_payout
    rw [hOwn]
    dsimp only
    rw [hby]
    dsimp only
    rw [hfind]
    dsimp only
    rw [if_pos hLen]
  rw [hred]
  refine ⟨_, rfl, ?_, ?_, ?_⟩
  · rw [payoutLoop_snd]
    simp only [Nat.zero_add]
    exact mfind_minsert_self _ _ _
  · intro k v hmem hko
    rw [mfind_minsert_ne _ k owner _ (fun he => hko he.symm)]
    exact mfind_payoutLoop_mem owner bal royalty [] 0 k v hNd hmem hko
  · calc msum (minsert (payoutLoop owner bal royalty [] 0).1 owner
          (royalty_to_payout (10000 - (payoutLoop owner bal royalty [] 0).2) bal))
        ≤ msum (payoutLoop owner bal royalty [] 0).1 +
            royalty_to_payout (10000 - (payoutLoop owner bal royalty [] 0).2) bal :=
          msum_minsert_le _ _ _
      _ ≤ nonOwnerPayout owner bal royalty +
            (10000 - nonOwnerTotal owner royalty) * bal / 10000 := by
          rw [payoutLoop_snd]
          have h1 := payoutLoop_sum_le owner bal royalty [] 0
          simp only [msum, List.map_nil, List.sum_nil, Nat.zero_add] at h1 ⊢
          exact Nat.add_le_add h1 le_rfl
      _ ≤ nonOwnerTotal owner royalty * bal / 10000 +
            (10000 - nonOwnerTotal owner royalty) * bal / 10000 :=
          Nat.add_le_add_right (nonOwnerPayout_le owner bal royalty) _
      _ ≤ (nonOwnerTotal owner royalty * bal +
            (10000 - nonOwnerTotal owner royalty) * bal) / 10000 :=
          div_add_div_le _ _ _ (by norm_num)
      _ = 10000 * bal / 10000 := by
          rw [← Nat.add_mul, Nat.add_sub_cancel' hT]
      _ = bal := Nat.mul_div_cancel_left bal (by norm_num)

/-- Claim C3, witness: the amended theorem applied to the concrete state
`C3cex`, balance 3. -/
theorem payout_entry_values_and_sum_bound_witness :
    ∃ payout, nft_payout C3cex "t" 3 10 = .ok payout
      ∧ mfind payout "alice" =
          some (royalty_to_payout (10000 - nonOwnerTotal "alice" [("admin", 150)]) 3)
      ∧ (∀ k v, (k, v) ∈ [(("admin" : String), (150 : Nat))] → k ≠ "alice" →
          mfind payout k = some (royalty_to_payout v 3))
      ∧ msum payout ≤ 3 :=
  payout_entry_values_and_sum_bound C3cex "t" 3 10 "alice" [("admin", 150)]
    rfl rfl (by decide) (by decide) (by decide) (by norm_num)

/-! ## Claim C4 — approval-id monotonicity -/

/-- Claim C4 (confirmed): over any sequence of operations on a token —
approvals, revocations, transfers, resolutions, succeeding or aborting —
the ids assigned by the successful approvals form the consecutive run
`next, next+1, …` starting from the token's current next-id counter, hence
are strictly increasing and never repeat; no operation decreases the
counter, which ends at `next + (number of ids assigned)`; and a fresh mint
initializes the counter so that the first approval gets id 1. -/
theorem approval_ids_strictly_increasing (c : Contract) (tok : String)
    (ops : List Op) :
    (runOps c tok ops).2 =
      List.range' (nextIdOf c tok) (runOps c tok ops).2.length
  ∧ ((runOps c tok ops).2).Pairwise (fun a b => a < b)
  ∧ nextIdOf (runOps c tok ops).1 tok =
      nextIdOf c tok + (runOps c tok ops).2.length
  ∧ ∀ own md, ∃ c1, internal_mint c own tok none md = .ok c1 ∧
      nextIdOf c1 tok = 1 := by
  obtain ⟨h1, h2⟩ := runOps_spec c tok ops
  refine ⟨h1, ?_, h2, ?_⟩
  · rw [h1]
    exact List.pairwise_lt_range' _ _ 1 (by omega)
  · intro own md
    refine ⟨_, rfl, ?_⟩
    cases hc : c.next_approval_id_by_id <;>
      simp [nextIdOf, hc, mfind_minsert_self]

/-! ## Claim C5 — transfer authorization -/

/-- Claim C5 (confirmed): for an existing token and a sender who is not the
owner, `internal_transfer` fails when the sender is not in the token's
approval map — with the " Unauthorized" panic when the token has no
approval record at all, with " Sender not approved" when the record lacks
the sender; the spec's single `Unauthorized` kind covers both (conjunct 1,
via `NftError.isUnauthorized`).  An approved delegate who supplies an
approval id different from the stored one fails with the approval-mismatch
panic (`InvalidApproval`), and an approved delegate who supplies no id or
the matching id succeeds (given a receiver different from the owner),
writing the new owner.  An error result carries no successor state, so
failed calls change nothing. -/
theorem transfer_authorization_cases (c : Contract) (sender receiver tok : String)
    (aid : Option Nat) (owner : String)
    (hOwn : mfind c.owner_by_id tok = some owner) (hs : sender ≠ owner) :
    ((tokenApprovals c tok = none ∨
        ∃ m, tokenApprovals c tok = some m ∧ mfind m sender = none) →
      ∃ e, internal_transfer c sender receiver tok aid = .error e ∧
        e.isUnauthorized = true)
  ∧ (tokenApprovals c tok = none →
      internal_transfer c sender receiver tok aid = .error .unauthorized)
  ∧ (∀ m, tokenApprovals c tok = some m → mfind m sender = none →
      internal_transfer c sender receiver tok aid = .error .senderNotApproved)
  ∧ (∀ m actual g, tokenApprovals c tok = some m → mfind m sender = some actual →
      aid = some g → g ≠ actual →
      internal_transfer c sender receiver tok aid = .error .invalidApproval)
  ∧ (∀ m actual, tokenApprovals c tok = some m → mfind m sender = some actual →
      (aid = none ∨ aid = some actual) → receiver ≠ owner →
      ∃ res, internal_transfer c sender receiver tok aid = .ok res ∧
        res.state.owner_by_id = minsert c.owner_by_id tok receiver) := by
  have hU :
      internal_transfer c sender receiver tok aid =
        match transferAuth (tokenApprovals c tok) sender owner aid with
        | .error e => .error e
        | .ok sender_opt =>
            if owner = receiver then .error .selfTransfer else
            .ok { state := internal_transfer_unguarded
                    { c with approvals_by_id :=
                        c.approvals_by_id.map (fun m => merase m tok) }
                    tok owner receiver
                  old_owner := owner
                  old_approvals := tokenApprovals c tok
                  authorized_id := sender_opt.filter (fun s => s = owner) } := by
    unfold internal_transfer
    rw [hOwn]
    rfl
  refine ⟨?_, ?_, ?_, ?_, ?_⟩
  · rintro (hnone | ⟨m, hm, hnf⟩)
    · refine ⟨.unauthorized, ?_, rfl⟩
      rw [hU, hnone]
      simp [transferAuth, hs]
    · refine ⟨.senderNotApproved, ?_, rfl⟩
      rw [hU, hm]
      simp [transferAuth, hs, hnf]
  · intro hnone
    rw [hU, hnone]
    simp [transferAuth, hs]
  · intro m hm hnf
    rw [hU, hm]
    simp [transferAuth, hs, hnf]
  · intro m actual g hm hf hg hne
    rw [hU, hm]
    simp [transferAuth, hs, hf, hg, hne]
  · intro m actual hm hf hok hrec
    rw [hU, hm]
    have hAuth : transferAuth (some m) sender owner aid = .ok (some sender) := by
      simp [transferAuth, hs, hf]
      rcases hok with h | h <;> simp [h]
    rw [hAuth]
    dsimp only
    rw [if_neg (fun h => hrec h.symm)]
    exact ⟨_, rfl, rfl⟩

/-- Concrete state for the C5 witness: token `t` owned by `A` with
delegate `B ↦ 1`. -/
def C5cfg : Contract :=
  ⟨"admin", [("t", "A")], none, some [("t", [("B", 1)])], some [("t", 2)], none⟩

/-- Concrete state for the C5 witness with the approvals subsystem off. -/
def C5cfgNoApp : Contract := ⟨"admin", [("t", "A")], none, none, none, none⟩

/-- Claim C5, witness: the four outcomes at concrete inputs — unapproved
sender with an approval record (" Sender not approved"), sender with no
approval record (" Unauthorized"), approved delegate with the wrong id
(mismatch panic), and approved delegate with the matching id
(success). -/
theorem transfer_authorization_cases_witness :
    internal_transfer C5cfg "C" "R" "t" none = .error .senderNotApproved
  ∧ internal_transfer C5cfgNoApp "C" "R" "t" none = .error .unauthorized
  ∧ internal_transfer C5cfg "B" "R" "t" (some 2) = .error .invalidApproval
  ∧ ∃ res, internal_transfer C5cfg "B" "R" "t" (some 1) = .ok res ∧
      res.state.owner_by_id = minsert C5cfg.owner_by_id "t" "R" := by
  have h1 := transfer_authorization_cases C5cfg "C" "R" "t" none "A" rfl (by decide)
  have h2 := transfer_authorization_cases C5cfgNoApp "C" "R" "t" none "A" rfl (by decide)
  have h3 := transfer_authorization_cases C5cfg "B" "R" "t" (some 2) "A" rfl (by decide)
  have h4 := transfer_authorization_cases C5cfg "B" "R" "t" (some 1) "A" rfl (by decide)
  refine ⟨h1.2.2.1 [("B", 1)] rfl rfl, h2.2.1 rfl,
    h3.2.2.2.1 [("B", 1)] 1 2 rfl rfl rfl (by decide), ?_⟩
  exact h4.2.2.2.2 [("B", 1)] 1 rfl rfl (Or.inr rfl) (by decide)

/-! ## Claim C6 — resolution after the receiver moved the token -/

/-- Claim C6 (confirmed): when the resolution runs on a settled promise and
the token still exists but its current owner differs from the pending
transfer's receiver, the resolution returns `true` and changes no state —
whatever the notification outcome, including the ones that demand a
revert. -/
theorem resolve_no_rollback_when_receiver_moved (c : Contract) (p r tok : String)
    (a : Option ApprovalMap) (pr : PromiseResult) (cur : AccountId)
    (hpr : pr ≠ .notReady) (hcur : mfind c.owner_by_id tok = some cur)
    (hne : cur ≠ r) :
    nft_resolve_transfer c p r tok a pr = some (c, true) := by
  unfold nft_resolve_transfer
  cases pr with
  | notReady => exact absurd rfl hpr
  | successful d =>
      cases d with
      | none => simp [mustRevert, hcur, hne]
      | some b => cases b <;> simp [mustRevert, hcur, hne]
  | failed => simp [mustRevert, hcur, hne]

/-- Claim C6, witness: a failed notification (which demands a revert) on a
token whose owner `C` is no longer the receiver `B` resolves to `true`
with the state untouched. -/
theorem resolve_no_rollback_when_receiver_moved_witness :
    nft_resolve_transfer ⟨"admin", [("t", "C")], none, none, none, none⟩
      "A" "B" "t" none .failed =
      some (⟨"admin", [("t", "C")], none, none, none, none⟩, true) :=
  resolve_no_rollback_when_receiver_moved _ "A" "B" "t" none .failed "C"
    (by decide) rfl (by decide)

/-! ## Claim C7 — mint-time royalty schedule and caps -/

/-- Fresh contract for the C7 counterexample and witness. -/
def C7base : Contract := ⟨"admin", [], some [], some [], some [], some []⟩

/-- Minted state of the C7 counterexample: the caller-supplied share for
the admin account has overwritten the fixed 150 entry. -/
def C7minted : Contract :=
  ⟨"admin", [("t", "alice")], some [("t", "md")], some [("t", [])],
    some [("t", 1)], some [("t", [("admin", 1000)])]⟩

/-- Claim C7, counterexample.  Minting with the caller-supplied perpetual
royalty `{admin ↦ 1000}` succeeds (1000 < 7000 and 150 + 1000 ≤ 7000), but
the resulting schedule is `{admin ↦ 1000}`: the `royalty.insert` in the
mint loop overwrote the fixed 150-basis-point entry, so the schedule does
NOT contain a 150 entry for the administrative account. -/
theorem mint_admin_entry_overwritten_cex :
    internal_mint C7base "alice" "t" (some [("admin", 1000)]) "md" = .ok C7minted
  ∧ tokenRoyalty C7minted "t" = some [("admin", 1000)]
  ∧ mfind [(("admin" : String), (1000 : Nat))] "admin" ≠ some 150 :=
  ⟨rfl, rfl, by decide⟩

/-- Claim C7, amended: when at most 7 perpetual royalties are supplied,
the mint succeeds iff every caller share is strictly below 7000 and
150 plus their sum is at most 7000; on success the schedule carries the
fixed 150-basis-point admin entry PROVIDED the caller did not supply a
share for the admin account themselves (a caller-supplied admin share
overwrites the 150, though 150 still counts toward the cap); violating
either cap aborts with `RoyaltyCapExceeded`, and since an aborting mint
returns no successor state, no token, metadata, royalty or approval state
is created. -/
theorem mint_royalty_caps_and_admin_entry (c : Contract) (own tok md : String)
    (perp : List (AccountId × Nat)) (hlen : perp.length ≤ 7) :
    ((∀ p ∈ perp, p.2 < MINTER_ROYALTY_CAP) →
      150 + perpTotal perp ≤ MINTER_ROYALTY_CAP →
      ∃ c', internal_mint c own tok (some perp) md = .ok c'
        ∧ ∀ by_id, c.royalty_by_id = some by_id →
            c.owner_id ∉ perp.map Prod.fst →
            ∃ sched, tokenRoyalty c' tok = some sched ∧
              mfind sched c.owner_id = some 150)
  ∧ (((∃ p ∈ perp, MINTER_ROYALTY_CAP ≤ p.2) ∨
        MINTER_ROYALTY_CAP < 150 + perpTotal perp) →
      internal_mint c own tok (some perp) md = .error .royaltyCapExceeded) := by
  constructor
  · intro hall hsum
    obtain ⟨sched, hs⟩ := mintRoyaltyLoop_ok perp [(c.owner_id, 150)] 150 hsum hall
    have hred : internal_mint c own tok (some perp) md = .ok { c with
        owner_by_id := minsert c.owner_by_id tok own
        token_metadata_by_id := c.token_metadata_by_id.map (fun m => minsert m tok md)
        royalty_by_id := c.royalty_by_id.map (fun m => minsert m tok sched)
        approvals_by_id := c.approvals_by_id.map (fun m => minsert m tok [])
        next_approval_id_by_id :=
          c.next_approval_id_by_id.map (fun m => minsert m tok 1) } := by
      unfold internal_mint
      dsimp only
      rw [if_pos hlen, hs]
    refine ⟨_, hred, ?_⟩
    intro by_id hby hnotin
    refine ⟨sched, ?_, ?_⟩
    · simp only [tokenRoyalty, hby, Option.map_some, Option.bind_some]
      exact mfind_minsert_self by_id tok sched
    · rw [mintRoyaltyLoop_preserve perp [(c.owner_id, 150)] 150 sched _
        c.owner_id hs hnotin]
      simp [mfind]
  · intro hbad
    have herr := mintRoyaltyLoop_err perp [(c.owner_id, 150)] 150 (by decide) hbad
    unfold internal_mint
    dsimp only
    rw [if_pos hlen, herr]

/-- Claim C7, witness: minting with `{bob ↦ 1000}` succeeds and the
schedule carries `admin ↦ 150`; minting with `{bob ↦ 6900}` aborts with
the royalty cap error (150 + 6900 > 7000). -/
theorem mint_royalty_caps_and_admin_entry_witness :
    (∃ c', internal_mint C7base "alice" "t" (some [("bob", 1000)]) "md" = .ok c'
      ∧ ∃ sched, tokenRoyalty c' "t" = some sched ∧ mfind sched "admin" = some 150)
  ∧ internal_mint C7base "alice" "t" (some [("bob", 6900)]) "md" =
      .error .royaltyCapExceeded := by
  have h1 := mint_royalty_caps_and_admin_entry C7base "alice" "t" "md"
    [("bob", 1000)] (by decide)
  have h2 := mint_royalty_caps_and_admin_entry C7base "alice" "t" "md"
    [("bob", 6900)] (by decide)
  obtain ⟨c', hc', hinner⟩ := h1.1 (by decide) (by decide)
  obtain ⟨sched, hts, h150⟩ := hinner [] rfl (by decide)
  exact ⟨⟨c', hc', sched, hts, h150⟩, h2.2 (Or.inr (by decide))⟩

/-! ## Claim C8 — operations with the approvals subsystem disabled -/

/-- Contract with the approvals subsystem disabled and one token. -/
def C8cex : Contract := ⟨"admin", [("t", "A")], none, none, none, none⟩

/-- Claim C8, counterexample.  With the approvals subsystem disabled,
`nft_is_approved` on an existing token does not fail with
`CapabilityDisabled` — it returns `false`. -/
theorem is_approved_disabled_returns_false_cex :
    nft_is_approved C8cex "t" "B" none = .ok false
  ∧ nft_is_approved C8cex "t" "B" none ≠ .error .capabilityDisabled :=
  ⟨rfl, fun h => Except.noConfusion h⟩

/-- Claim C8, amended: with the approvals subsystem disabled, `nft_approve`,
`nft_revoke` and `nft_revoke_all` fail with `CapabilityDisabled` (before
even checking token existence), while `nft_is_approved` does not fail: for
an existing token it returns `false`. -/
theorem approval_ops_capability_disabled (c : Contract) (caller tok acc : String)
    (aid : Option Nat) (h : c.approvals_by_id = none) :
    nft_approve c caller tok acc = .error .capabilityDisabled
  ∧ nft_revoke c caller tok acc = .error .capabilityDisabled
  ∧ nft_revoke_all c caller tok = .error .capabilityDisabled
  ∧ ∀ own, mfind c.owner_by_id tok = some own →
      nft_is_approved c tok acc aid = .ok false := by
  refine ⟨?_, ?_, ?_, ?_⟩
  · simp [nft_approve, h]
  · simp [nft_revoke, h]
  · simp [nft_revoke_all, h]
  · intro own hown
    simp [nft_is_approved, h, hown]

/-- Claim C8, witness: the amended theorem at the concrete disabled-registry
state `C8cex`. -/
theorem approval_ops_capability_disabled_witness :
    nft_approve C8cex "A" "t" "B" = .error .capabilityDisabled
  ∧ nft_revoke C8cex "A" "t" "B" = .error .capabilityDisabled
  ∧ nft_revoke_all C8cex "A" "t" = .error .capabilityDisabled
  ∧ nft_is_approved C8cex "t" "B" (some 1) = .ok false := by
  have h := approval_ops_capability_disabled C8cex "A" "t" "B" (some 1) rfl
  exact ⟨h.1, h.2.1, h.2.2.1, h.2.2.2 "A" rfl⟩

/-! ## Claim C9 — the event's authorized-delegate field -/

/-- Claim C9 (confirmed): every successful `internal_transfer` emits its
`NftTransfer` event with `authorized_id = None`.  The field is computed as
`sender_id.filter(|s| *s == &owner_id)` where `sender_id` is `Some(sender)`
only when `sender != owner`, so the filter condition can never hold — the
event never records the authorizing delegate, even when a delegate
performed the transfer. -/
theorem transfer_event_authorized_id_always_none (c : Contract)
    (s r tok : String) (aid : Option Nat) (res : TransferOk)
    (h : internal_transfer c s r tok aid = .ok res) :
    res.authorized_id = none := by
  obtain ⟨owner, sopt, _, hA, _, hres⟩ := internal_transfer_ok_shape c s r tok aid res h
  subst hres
  rcases transferAuth_ok_shape _ _ _ _ _ hA with h1 | ⟨h1, hne⟩ <;> subst h1
  · rfl
  · simp [Option.filter, hne]

/-- Concrete state for the C9 witness: delegate `B` holds approval id 1 on
`t` owned by `A`. -/
def C9cfg : Contract :=
  ⟨"admin", [("t", "A")], none, some [("t", [("B", 1)])], some [("t", 2)], none⟩

/-- Result of the C9 witness transfer performed by the delegate `B`. -/
def C9res : TransferOk :=
  ⟨⟨"admin", [("t", "R")], none, some [], some [("t", 2)], none⟩,
    "A", some [("B", 1)], none⟩

/-- Claim C9, witness: a transfer legitimately performed by the approved
delegate `B` succeeds, and the emitted event's `authorized_id` is `none`
all the same. -/
theorem transfer_event_authorized_id_always_none_witness :
    internal_transfer C9cfg "B" "R" "t" none = .ok C9res
  ∧ C9res.authorized_id = none :=
  ⟨rfl, transfer_event_authorized_id_always_none C9cfg "B" "R" "t" none C9res rfl⟩

/-! ## Claim C10 — the 7-entry limit on perpetual royalties -/

/-- Claim C10 (confirmed): supplying more than 7 perpetual-royalty entries
makes `internal_mint` abort with the dedicated entry-count panic before the
values are even examined; the aborting call returns no successor state, so
nothing is created. -/
theorem mint_rejects_more_than_seven_royalties (c : Contract) (own tok md : String)
    (perp : List (AccountId × Nat)) (h : 7 < perp.length) :
    internal_mint c own tok (some perp) md = .error .tooManyPerpetualRoyalties := by
  unfold internal_mint
  dsimp only
  rw [if_neg (by omega)]

/-- Claim C10, witness: eight 1-basis-point entries are rejected. -/
theorem mint_rejects_more_than_seven_royalties_witness :
    internal_mint ⟨"admin", [], none, none, none, none⟩ "A" "t"
      (some [("a", 1), ("b", 1), ("c", 1), ("d", 1),
             ("e", 1), ("f", 1), ("g", 1), ("h", 1)]) "md" =
      .error .tooManyPerpetualRoyalties :=
  mint_rejects_more_than_seven_royalties _ "A" "t" "md" _ (by decide)

end NftContract
